import Mathlib

/-!
Verification of the renewable-chronic synthesis core of chronix2grid
(`chronix2grid/generation/renewable/solar_wind_utils.py`).

The numeric arrays of the Python code are modelled as `List K` over a linear
ordered field `K` (instantiated with `ℝ` for analytic claims and with `ℚ`
for executable witnesses).  The two pieces of code that the module consumes
but does not implement are passed as explicit function parameters:

* `interpolate_noise` — Modelled from the spec: the NoiseField provider
  (`generation_utils.interpolate_noise`) is an external collaborator that
  turns a noise sample, the params, the locations and a correlation
  time-scale into a signal the length of the time grid; it is not part of
  the sources, so it is an abstract function argument here.
* `cubicInterp` — Modelled from the spec: `scipy.interpolate.interp1d`
  with `kind='cubic'`; the fitted interpolant is modelled as a pointwise
  evaluation function taking the sample time axis, the sample values and a
  query time.

The pseudo-random generator `prng` is modelled as a function from the
uniform-draw bounds to a stream of draws, one per array position, mirroring
`prng.uniform(lo, hi, shape)`.
-/

set_option linter.unusedVariables false
set_option linter.unusedSectionVars false
set_option linter.unnecessarySimpa false

variable {K : Type} [LinearOrderedField K]

/-- Parameters dictionary of the synthesis functions, restricted to the keys
the modelled functions read.  Dates are represented in minutes:
`startMinOfYear`/`endMinOfYear` are the minutes from Jan 1st (00:00) of the
start year to `start_date`/`end_date` (naive timestamps, every day has 1440
minutes), and `startMin2018` is the signed number of minutes from
2018-01-01 to `start_date`. -/
structure Params (K : Type) where
  T : ℕ
  dt : ℕ
  startMinOfYear : ℕ
  endMinOfYear : ℕ
  startMin2018 : ℤ
  longWindCorr : K
  mediumWindCorr : K
  shortWindCorr : K
  stdShortWindNoise : K
  stdMediumWindNoise : K
  stdLongWindNoise : K
  stdSolarNoise : K
  meanSolarPattern : Option K
  useZonalSolarPattern : Bool
  solarNightHour : Option (List ℕ)
  forceSolarZero : Option ℕ

/-- Errors the pattern computation can raise.  `insufficientData` is the
`ValueError` of the zonal branch (observed length, required length); the
other constructors stand for the numpy errors that the night-masking and
force-zero heuristics can raise on degenerate configurations (reduction of
an empty array, broadcast length mismatch). -/
inductive PatternError where
  | insufficientData (observed required : ℕ)
  | emptyNightFilter
  | broadcastMismatch
  | emptyReduction
deriving DecidableEq

/-- True exactly on the data-insufficiency error of the zonal branch. -/
def PatternError.isData : PatternError → Bool
  | .insufficientData _ _ => true
  | _ => false

/-- `np.linspace a b n` with `endpoint=True` (exact arithmetic). -/
def linspace (a b : K) (n : ℕ) : List K :=
  if n = 1 then [a]
  else (List.range n).map (fun (i : ℕ) => a + (b - a) * (i : K) / ((n : K) - 1))

/-- The inner polynomial `pol` of `smooth`: despite its signature it
returns `1 - exp (-x)` (source lines 327–328). -/
def smooth_pol (rexp : K → K) (x alpha beta : K) : K :=
  1 - rexp (-x)

/-- `smooth(x, alpha=0.5, beta=None)` of the source, applied to an array:
`beta` defaults to `1/alpha` and `pol` is applied element-wise. -/
def smooth (rexp : K → K) (x : List K) (alpha : K) (beta : Option K) : List K :=
  let beta' := beta.getD (1 / alpha)
  x.map (fun v => smooth_pol rexp v alpha beta')

/-- Element-wise combination of three equal-length numpy arrays. -/
def zipWith3 (f : K → K → K → K) : List K → List K → List K → List K
  | a :: as, b :: bs, c :: cs => f a b c :: zipWith3 f as bs cs
  | _, _, _ => []

/-- Adds a stream of draws position-wise, starting at index `i`:
models `signal += prng.uniform(lo, hi, signal.shape)`. -/
def addIdxFrom (u : ℕ → K) : ℕ → List K → List K
  | _, [] => []
  | i, x :: xs => (x + u i) :: addIdxFrom u (i + 1) xs

/-- `signal + draws`, draw `u i` added at position `i`. -/
def addIdx (xs : List K) (u : ℕ → K) : List K :=
  addIdxFrom u 0 xs

/-- `np.min` of an array (0 on the empty array, which numpy rejects). -/
def listMin : List K → K
  | [] => 0
  | x :: xs => xs.foldl min x

/-- `np.max` of an array (0 on the empty array, which numpy rejects). -/
def listMax : List K → K
  | [] => 0
  | x :: xs => xs.foldl max x

/-- Masked assignment `xs[hs == h] = vals`: positions whose companion hour
equals `h` receive the successive elements of `vals`; other positions are
unchanged. -/
def maskedAssign (h : ℕ) : List ℕ → List K → List K → List K
  | _, [], _ => []
  | [], xs, _ => xs
  | hh :: hs, x :: xs, vals =>
    if hh = h then vals.headD 0 :: maskedAssign h hs xs vals.tail
    else x :: maskedAssign h hs xs vals

/-- Min-max normalization `(a - a.min()) / (a.max() - a.min())` of the
zonal branch (source line 156). -/
def normalizePattern (xs : List K) : List K :=
  xs.map (fun v => (v - listMin xs) / (listMax xs - listMin xs))

/-- Zonal branch of `compute_solar_pattern` (source lines 138–156): require
at least 4×8760 hourly values, truncate to exactly that, reshape into 4
year-rows, average across years, then min-max normalize. -/
def zonalAverage (pv : List K) : Except PatternError (List K) :=
  let n_years := 4
  let hours_per_year := 8760
  let total := hours_per_year * n_years
  if pv.length < total then
    .error (.insufficientData pv.length total)
  else
    let pv' := pv.take total
    let average_pattern := (List.range hours_per_year).map
      (fun h => (((List.range n_years).map
        (fun y => pv'.getD (y * hours_per_year + h) 0)).sum) / (n_years : K))
    .ok (normalizePattern average_pattern)

/-- Number of time steps `Nt_inter = T // dt + 1` (source lines 50, 174). -/
def NtInter (p : Params K) : ℕ :=
  p.T / p.dt + 1

/-- `Nt_inter_hr = end_min // 60 + 1` (source line 162). -/
def NtInterHr (endMin : ℕ) : ℕ :=
  endMin / 60 + 1

/-- Repetition count `N_repet = (Nt_inter_hr - 1) // len(solar_pattern) + 1`
(source line 163). -/
def nRepet (endMin L : ℕ) : ℕ :=
  (NtInterHr endMin - 1) / L + 1

/-- The tiled pattern: `solar_pattern` appended to itself `N_repet - 1`
times (source lines 164–166). -/
def stackPattern (sp : List K) (n : ℕ) : List K :=
  (List.range (n - 1)).foldl (fun acc _ => acc ++ sp) sp

/-- Hourly time axis in minutes:
`60 * np.linspace(0, 8760*N, 8760*N, endpoint=False)` (source line 170). -/
def tPattern (n : ℕ) : List K :=
  (List.range (8760 * n)).map (fun (i : ℕ) => (60 : K) * (i : K))

/-- Hour of day of time step `i`: the `.hour` field of
`start_date + i*dt` minutes (source lines 190–191). -/
def hourOfStep (p : Params K) (i : ℕ) : ℕ :=
  (p.startMinOfYear % 1440 + i * p.dt) / 60 % 24

/-- The array `dts_hours` of per-step hours of day. -/
def hoursList (p : Params K) (n : ℕ) : List ℕ :=
  (List.range n).map (fun i => hourOfStep p i)

/-- `nb_day = (end_date - start_date).total_seconds() // 86400`
(source line 205). -/
def nbDay (p : Params K) : ℕ :=
  (p.endMinOfYear - p.startMinOfYear) / 1440

/-- Resampling part of `compute_solar_pattern` (source lines 159–182): tile
the pattern, fit the (externally supplied) cubic interpolant on the hourly
axis, evaluate it on the simulation time axis, clip negatives to zero and
zero anything under `tol`. -/
def resampledOutput (cubicInterp : List K → List K → K → K)
    (p : Params K) (sp : List K) (tol : K) : List K :=
  let N_repet := nRepet p.endMinOfYear sp.length
  let stacked := stackPattern sp N_repet
  let t_pattern : List K := tPattern N_repet
  let t_inter := linspace (p.startMinOfYear : K) (p.endMinOfYear : K) (NtInter p)
  let output0 := t_inter.map (fun x => cubicInterp t_pattern stacked x)
  let output1 := output0.map (fun v => if v > 0 then v else 0)
  output1.map (fun v => if v < tol then 0 else v)

/-- Night-forcing multiplicative mask `to_mult` (source lines 188–221):
zero on configured night hours, with one-hour sigmoid ramps assigned at the
first non-night hour after sunrise and the first non-night hour before
sunset. -/
def nightMask (rexp : K → K) (nightHours : List ℕ) (dts_hours : List ℕ)
    (dtMin nb_day : ℕ) : Except PatternError (List K) :=
  let to_mult0 : List K := dts_hours.map (fun h => if h ∈ nightHours then 0 else 1)
  let left := (List.range (60 / dtMin)).map
    (fun (i : ℕ) => 1 / (1 + rexp (1 - ((1 + (i : K)) - (30 : K) / (dtMin : K)))))
  let right := (List.range (60 / dtMin)).map
    (fun (i : ℕ) => 1 / (1 + rexp (1 + ((1 + (i : K)) - (30 : K) / (dtMin : K)))))
  match (nightHours.filter (fun h => decide (h ≤ 12))).max?,
        (nightHours.filter (fun h => decide (12 ≤ h))).min? with
  | some mx, some mn =>
    let first_non_zero_h := mx + 1
    let last_non_zero_h := mn - 1
    let all_left := (List.replicate nb_day left).flatten
    let cntF := (dts_hours.filter (fun h => decide (h = first_non_zero_h))).length
    if cntF < all_left.length then .error .broadcastMismatch
    else
      let tmpL := all_left ++ List.replicate (cntF - all_left.length) 0
      let m1 := maskedAssign first_non_zero_h dts_hours to_mult0 tmpL
      let all_right := (List.replicate nb_day right).flatten
      let cntL := (dts_hours.filter (fun h => decide (h = last_non_zero_h))).length
      if cntL < all_right.length then .error .broadcastMismatch
      else
        let tmpR := List.replicate (cntL - all_right.length) 0 ++ all_right
        .ok (maskedAssign last_non_zero_h dts_hours m1 tmpR)
  | _, _ => .error .emptyNightFilter

/-- `force_solar_zero` heuristic (source lines 226–239): find the latest
hour still above 5% of the maximum, shift by the margin and zero beyond it;
then the same on the (already updated) output in the other direction. -/
def forceZero (margin : ℕ) (dts_hours : List ℕ) (output : List K) :
    Except PatternError (List K) :=
  let threshold := listMax output * (1 / 20)
  let selHigh := ((List.zip dts_hours output).filter
    (fun q => decide (threshold ≤ q.2))).map (fun q => q.1)
  match selHigh with
  | [] => .error .emptyReduction
  | h :: t =>
    let max_hour : ℤ := ((t.foldl max h : ℕ) : ℤ) + (margin : ℤ)
    let out1 := List.zipWith
      (fun (v : K) (hh : ℕ) => if (hh : ℤ) ≥ max_hour then 0 else v) output dts_hours
    let selLow := ((List.zip dts_hours out1).filter
      (fun q => decide (threshold ≤ q.2))).map (fun q => q.1)
    match selLow with
    | [] => .error .emptyReduction
    | h2 :: t2 =>
      let min_hour : ℤ := ((t2.foldl min h2 : ℕ) : ℤ) - (margin : ℤ)
      .ok (List.zipWith
        (fun (v : K) (hh : ℕ) => if (hh : ℤ) ≤ min_hour then 0 else v) out1 dts_hours)

/-- Resampled output with the optional night mask applied
(source lines 188–224). -/
def afterNight (rexp : K → K) (cubicInterp : List K → List K → K → K)
    (p : Params K) (sp : List K) (tol : K) : Except PatternError (List K) :=
  let output := resampledOutput cubicInterp p sp tol
  match p.solarNightHour with
  | none => .ok output
  | some cfg =>
    match nightMask rexp cfg (hoursList p (NtInter p)) p.dt (nbDay p) with
    | .error e => .error e
    | .ok to_mult => .ok (List.zipWith (fun a b => a * b) output to_mult)

/-- Pattern pipeline after the zonal/legacy branch: resampling, optional
night mask, optional force-zero heuristic. -/
def patternPipeline (rexp : K → K) (cubicInterp : List K → List K → K → K)
    (p : Params K) (sp : List K) (tol : K) : Except PatternError (List K) :=
  match afterNight rexp cubicInterp p sp tol with
  | .error e => .error e
  | .ok out2 =>
    match p.forceSolarZero with
    | none => .ok out2
    | some margin => forceZero margin (hoursList p (NtInter p)) out2

/-- `compute_solar_pattern(params, solar_pattern, tol)`
(source lines 122–242). -/
def compute_solar_pattern (rexp : K → K)
    (cubicInterp : List K → List K → K → K)
    (p : Params K) (solar_pattern : List K) (tol : K) :
    Except PatternError (List K) :=
  match (if p.useZonalSolarPattern then zonalAverage solar_pattern
         else .ok solar_pattern) with
  | .error e => .error e
  | .ok sp => patternPipeline rexp cubicInterp p sp tol

/-- `compute_wind_series` (source lines 23–73; the optional diagnostic
reference-curve second return value of lines 72–74 is not modelled).
`prng lo hi i` is the `i`-th draw of `prng.uniform(lo, hi, shape)`. -/
def compute_wind_series (rexp rcos : K → K) (pi : K)
    (interpolate_noise : List K → Params K → List K → K → Bool → List K)
    (prng : K → K → ℕ → K)
    (locations : List K) (Pmax : K)
    (long_noise medium_noise short_noise : List K)
    (p : Params K) (smoothdist : K) (add_dim : Bool) (tol : K) : List K :=
  let long_scale_signal := interpolate_noise long_noise p locations p.longWindCorr add_dim
  let medium_scale_signal := interpolate_noise medium_noise p locations p.mediumWindCorr add_dim
  let short_scale_signal := interpolate_noise short_noise p locations p.shortWindCorr add_dim
  let Nt_inter := NtInter p
  let t := linspace 0 (p.T : K) Nt_inter
  let seasonal_pattern := t.map
    (fun x => rcos (2 * pi / (365 * 24 * 60) * (x - 30 * 24 * 60 + (p.startMin2018 : K))))
  let signal1 := zipWith3
    (fun s m l => (7/10 + 3/10 * s) *
      (3/10 + p.stdMediumWindNoise * m + p.stdLongWindNoise * l))
    seasonal_pattern medium_scale_signal long_scale_signal
  let signal2 := List.zipWith
    (fun v sh => v + p.stdShortWindNoise * sh) signal1 short_scale_signal
  let signal3 := signal2.map (fun v => 1/10 * rexp (4 * v))
  let signal4 := addIdx signal3 (prng 0 smoothdist)
  let signal5 := signal4.map (fun v => if v < tol then 0 else v)
  let signal6 := smooth rexp signal5 (1/2) none
  let wind_series := signal6.map (fun v => Pmax * v)
  wind_series.map (fun v => if v > 19/20 * Pmax then 19/20 * Pmax else v)

/-- `compute_solar_series` (source lines 77–120; the optional diagnostic
reference-curve second return value is not modelled). -/
def compute_solar_series (rexp : K → K)
    (interpolate_noise : List K → Params K → List K → K → Bool → List K)
    (cubicInterp : List K → List K → K → K)
    (prng : K → K → ℕ → K)
    (locations : List K) (Pmax : K) (solar_noise : List K)
    (p : Params K) (smoothdist : K) (solar_pattern : List K)
    (time_scale : K) (add_dim : Bool)
    (scale_solar_coord_for_correlation : Option K) (tol : K) :
    Except PatternError (List K) :=
  let locations' := match scale_solar_coord_for_correlation with
    | some c => [c * locations.getD 0 0, c * locations.getD 1 0]
    | none => locations
  let final_noise := interpolate_noise solar_noise p locations' time_scale add_dim
  match compute_solar_pattern rexp cubicInterp p solar_pattern tol with
  | .error e => .error e
  | .ok pat =>
    let mean_solar_pattern := p.meanSolarPattern.getD (3/4)
    let signal1 := List.zipWith
      (fun pt n => pt * (mean_solar_pattern + p.stdSolarNoise * n)) pat final_noise
    let signal2 := addIdx signal1 (prng 0 smoothdist)
    let signal3 := signal2.map (fun v => if v < tol then 0 else v)
    let signal4 := smooth rexp signal3 (1/2) none
    let solar_series := signal4.map (fun v => Pmax * v)
    .ok (solar_series.map (fun v => if v > 19/20 * Pmax then 19/20 * Pmax else v))

/-- The wind combination exactly as the specification words it (claim C8):
`base`, `signal = 0.1*exp(4*base)`, add the uniform draw, zero strictly
below `tol`, apply the bounded smoothing transform, multiply by `Pmax`,
cap at `0.95*Pmax`, in that order; stated per time step. -/
def windSpecValue (rexp : K → K) (Pmax tol : K)
    (stdShort stdMedium stdLong : K)
    (seasonal medium longS shortS u : ℕ → K) (i : ℕ) : K :=
  let base := (7/10 + 3/10 * seasonal i) *
    (3/10 + stdMedium * medium i + stdLong * longS i) + stdShort * shortS i
  let signal := 1/10 * rexp (4 * base)
  let withNoise := signal + u i
  let zeroed := if withNoise < tol then 0 else withNoise
  let smoothed := smooth_pol rexp zeroed (1/2) (1 / (1/2))
  min (Pmax * smoothed) (19/20 * Pmax)

/-- A concrete degenerate parameter record (a single time step, all noise
amplitudes zero, no optional heuristics), used by the witnesses. -/
def pZero (K : Type) [LinearOrderedField K] : Params K :=
  { T := 0, dt := 1, startMinOfYear := 0, endMinOfYear := 0,
    startMin2018 := 0, longWindCorr := 0, mediumWindCorr := 0,
    shortWindCorr := 0, stdShortWindNoise := 0, stdMediumWindNoise := 0,
    stdLongWindNoise := 0, stdSolarNoise := 0, meanSolarPattern := none,
    useZonalSolarPattern := false, solarNightHour := none,
    forceSolarZero := none }

/-- A concrete two-hour parameter record with hourly steps starting at
midnight and the standard night-hour configuration, used by the
witnesses. -/
def pNight (K : Type) [LinearOrderedField K] : Params K :=
  { T := 120, dt := 60, startMinOfYear := 0, endMinOfYear := 120,
    startMin2018 := 0, longWindCorr := 0, mediumWindCorr := 0,
    shortWindCorr := 0, stdShortWindNoise := 0, stdMediumWindNoise := 0,
    stdLongWindNoise := 0, stdSolarNoise := 0, meanSolarPattern := none,
    useZonalSolarPattern := false, solarNightHour := some [22,23,0,1,2,3,4,5],
    forceSolarZero := none }

/-- The degenerate parameter record with zonal mode enabled, used by the
witnesses. -/
def pZonal (K : Type) [LinearOrderedField K] : Params K :=
  { pZero K with useZonalSolarPattern := true }

/-- Every value of the zero-below-`tol` step is non-negative when `tol` is
non-negative. -/
theorem zero_step_nonneg (tol w : ℝ) (htol : 0 ≤ tol) :
    (0 : ℝ) ≤ if w < tol then 0 else w := by
  by_cases h : w < tol
  · simp [h]
  · simp only [if_neg h]
    exact le_trans htol (not_lt.1 h)

/-- Common tail of the two synthesizers: zero under `tol`, smooth, scale by
`Pmax`, cap at `0.95*Pmax`.  Every element of the result lies in
`[0, 0.95*Pmax]` when `Pmax > 0` and `tol ≥ 0`. -/
theorem mem_tail_bounds (Pmax tol : ℝ) (hP : 0 < Pmax) (htol : 0 ≤ tol)
    (s : List ℝ) (v : ℝ)
    (hv : v ∈ ((smooth Real.exp (s.map (fun w => if w < tol then 0 else w))
        (1/2) none).map (fun w => Pmax * w)).map
        (fun w => if w > 19/20 * Pmax then 19/20 * Pmax else w)) :
    0 ≤ v ∧ v ≤ 19/20 * Pmax := by
  have hc : (0:ℝ) ≤ 19/20 * Pmax := by positivity
  rcases List.mem_map.1 hv with ⟨w1, hw1, rfl⟩
  rcases List.mem_map.1 hw1 with ⟨w2, hw2, rfl⟩
  unfold smooth at hw2
  rcases List.mem_map.1 hw2 with ⟨w3, hw3, rfl⟩
  rcases List.mem_map.1 hw3 with ⟨w4, hw4, rfl⟩
  have hz0 : (0:ℝ) ≤ if w4 < tol then 0 else w4 := zero_step_nonneg tol w4 htol
  set z := if w4 < tol then 0 else w4 with hz
  have hexp : Real.exp (-z) ≤ 1 := by
    calc Real.exp (-z) ≤ Real.exp 0 := Real.exp_le_exp.mpr (by linarith)
    _ = 1 := Real.exp_zero
  have hs0 : (0:ℝ) ≤ smooth_pol Real.exp z (1/2) (1/(1/2)) := by
    simp only [smooth_pol]; linarith
  have hscaled : (0:ℝ) ≤ Pmax * smooth_pol Real.exp z (1/2) (1/(1/2)) :=
    mul_nonneg hP.le hs0
  by_cases hcap : Pmax * smooth_pol Real.exp z (1/2) (1/(1/2)) > 19/20 * Pmax
  · simp only [smooth_pol] at hcap ⊢
    rw [if_pos hcap]
    exact ⟨hc, le_refl _⟩
  · simp only [smooth_pol] at hcap hscaled ⊢
    rw [if_neg hcap]
    exact ⟨hscaled, not_lt.1 hcap⟩

/-- C1: for every site and every valid input (`Pmax > 0`, any noise
samples, any seeded generator; the zero threshold `tol` at its non-negative
default), every element of the series returned by `compute_wind_series` and
by `compute_solar_series` lies in `[0, 0.95*Pmax]`; in particular no
element is negative. -/
theorem claim_C1_bounds (rcos : ℝ → ℝ) (pi : ℝ)
    (interpolate_noise : List ℝ → Params ℝ → List ℝ → ℝ → Bool → List ℝ)
    (cubicInterp : List ℝ → List ℝ → ℝ → ℝ)
    (prng : ℝ → ℝ → ℕ → ℝ)
    (locations : List ℝ) (Pmax : ℝ)
    (long_noise medium_noise short_noise solar_noise : List ℝ)
    (p : Params ℝ) (smoothdist : ℝ) (add_dim : Bool) (tol : ℝ)
    (solar_pattern : List ℝ) (time_scale : ℝ) (scaleC : Option ℝ)
    (hP : 0 < Pmax) (htol : 0 ≤ tol) :
    (∀ v ∈ compute_wind_series Real.exp rcos pi interpolate_noise prng locations
        Pmax long_noise medium_noise short_noise p smoothdist add_dim tol,
      0 ≤ v ∧ v ≤ 19/20 * Pmax) ∧
    (∀ out, compute_solar_series Real.exp interpolate_noise cubicInterp prng
        locations Pmax solar_noise p smoothdist solar_pattern time_scale add_dim
        scaleC tol = Except.ok out →
      ∀ v ∈ out, 0 ≤ v ∧ v ≤ 19/20 * Pmax) := by
  constructor
  · intro v hv
    exact mem_tail_bounds Pmax tol hP htol _ v hv
  · intro out hres v hv
    unfold compute_solar_series at hres
    rcases hpat : compute_solar_pattern Real.exp cubicInterp p solar_pattern tol with e | pat
    · rw [hpat] at hres; cases hres
    · rw [hpat] at hres
      simp only [Except.ok.injEq] at hres
      subst hres
      exact mem_tail_bounds Pmax tol hP htol _ v hv

/-- Witness for C1 at `Pmax = 1`, `tol = 0`. -/
theorem claim_C1_bounds_witness :
    (0:ℝ) < 1 ∧ (0:ℝ) ≤ 0 ∧
    (∀ v ∈ compute_wind_series Real.exp (fun _ => 0) 0
        (fun noise _ _ _ _ => noise) (fun _ _ _ => 0) [] 1 [0] [0] [0]
        (pZero ℝ) 0 false 0,
      0 ≤ v ∧ v ≤ 19/20 * 1) :=
  ⟨by norm_num, le_refl 0,
    (claim_C1_bounds (fun _ => 0) 0 (fun noise _ _ _ _ => noise)
      (fun _ _ _ => 0) (fun _ _ _ => 0) [] 1 [0] [0] [0] [0]
      (pZero ℝ) 0 false 0 [0] 0 none
      (by norm_num) (le_refl 0)).1⟩

/-- C2: with all explicit arguments equal, two independent calls of
`compute_wind_series` and of `compute_solar_series` return identical
results: the functions are deterministic in their explicit arguments and
read no hidden global state.  The seeded generator is one of the explicit
arguments (`prng`), mirroring the dependency-injected generator of the
source. -/
theorem claim_C2_determinism {K : Type} [LinearOrderedField K]
    (rexp rcos : K → K) (pi : K)
    (interpolate_noise : List K → Params K → List K → K → Bool → List K)
    (cubicInterp : List K → List K → K → K)
    (prng prng' : K → K → ℕ → K)
    (locations locations' : List K) (Pmax Pmax' : K)
    (long_noise long_noise' medium_noise medium_noise'
      short_noise short_noise' solar_noise solar_noise' : List K)
    (p p' : Params K) (smoothdist smoothdist' : K) (add_dim add_dim' : Bool)
    (tol tol' : K) (solar_pattern solar_pattern' : List K)
    (time_scale time_scale' : K) (scaleC scaleC' : Option K)
    (h1 : prng = prng') (h2 : locations = locations') (h3 : Pmax = Pmax')
    (h4 : long_noise = long_noise') (h5 : medium_noise = medium_noise')
    (h6 : short_noise = short_noise') (h7 : solar_noise = solar_noise')
    (h8 : p = p') (h9 : smoothdist = smoothdist') (h10 : add_dim = add_dim')
    (h11 : tol = tol') (h12 : solar_pattern = solar_pattern')
    (h13 : time_scale = time_scale') (h14 : scaleC = scaleC') :
    compute_wind_series rexp rcos pi interpolate_noise prng locations Pmax
        long_noise medium_noise short_noise p smoothdist add_dim tol
      = compute_wind_series rexp rcos pi interpolate_noise prng' locations' Pmax'
        long_noise' medium_noise' short_noise' p' smoothdist' add_dim' tol' ∧
    compute_solar_series rexp interpolate_noise cubicInterp prng locations Pmax
        solar_noise p smoothdist solar_pattern time_scale add_dim scaleC tol
      = compute_solar_series rexp interpolate_noise cubicInterp prng' locations'
        Pmax' solar_noise' p' smoothdist' solar_pattern' time_scale' add_dim'
        scaleC' tol' := by
  subst h1 h2 h3 h4 h5 h6 h7 h8 h9 h10 h11 h12 h13 h14
  exact ⟨rfl, rfl⟩

/-- Witness for C2 at a concrete argument tuple. -/
theorem claim_C2_determinism_witness :
    compute_wind_series (K := ℚ) (fun _ => 1) (fun _ => 0) 0
        (fun noise _ _ _ _ => noise) (fun _ _ _ => 0) [] 1 [0] [0] [0]
        (pZero ℚ) 0 false 0
      = compute_wind_series (K := ℚ) (fun _ => 1) (fun _ => 0) 0
        (fun noise _ _ _ _ => noise) (fun _ _ _ => 0) [] 1 [0] [0] [0]
        (pZero ℚ) 0 false 0 :=
  (claim_C2_determinism (K := ℚ) (fun _ => 1) (fun _ => 0) 0
    (fun noise _ _ _ _ => noise) (fun _ _ _ => 0) (fun _ _ _ => 0) (fun _ _ _ => 0)
    [] [] 1 1 [0] [0] [0] [0] [0] [0] [0] [0] (pZero ℚ) (pZero ℚ)
    0 0 false false 0 0 [0] [0] 0 0 none none
    rfl rfl rfl rfl rfl rfl rfl rfl rfl rfl rfl rfl rfl rfl).1

/-- C3: the bounded smoothing transform computes `1 - exp (-x)`
element-wise; `smooth 0 = 0`, it is strictly increasing on the reals, and
`smooth x < 1` for every `x`. -/
theorem claim_C3_smooth_transform :
    (∀ x alpha beta : ℝ, smooth_pol Real.exp x alpha beta = 1 - Real.exp (-x)) ∧
    (∀ (xs : List ℝ) (alpha : ℝ) (betaOpt : Option ℝ),
      smooth Real.exp xs alpha betaOpt = xs.map (fun v => 1 - Real.exp (-v))) ∧
    (∀ alpha beta : ℝ, smooth_pol Real.exp 0 alpha beta = 0) ∧
    (∀ alpha beta : ℝ, StrictMono (fun x : ℝ => smooth_pol Real.exp x alpha beta)) ∧
    (∀ x alpha beta : ℝ, smooth_pol Real.exp x alpha beta < 1) := by
  refine ⟨fun x a b => rfl, fun xs a b => rfl, fun a b => by simp [smooth_pol], ?_, ?_⟩
  · intro a b x y hxy
    simp only [smooth_pol]
    have h := Real.exp_lt_exp.mpr (neg_lt_neg hxy)
    linarith
  · intro x a b
    simp only [smooth_pol]
    have h := Real.exp_pos (-x)
    linarith

/-- Witness for C3 at a concrete point. -/
theorem claim_C3_smooth_transform_witness :
    smooth_pol Real.exp (0:ℝ) (1/2) 2 = 0 :=
  claim_C3_smooth_transform.2.2.1 (1/2) 2

/-- `linspace` always returns `n` points. -/
theorem linspace_length (a b : K) (n : ℕ) : (linspace a b n).length = n := by
  by_cases h : n = 1
  · simp [linspace, h]
  · simp [linspace, h]

/-- Length of the three-array element-wise combination. -/
theorem zipWith3_length (f : K → K → K → K) (as bs cs : List K) :
    (zipWith3 f as bs cs).length = min (min as.length bs.length) cs.length := by
  induction as generalizing bs cs with
  | nil => cases bs <;> cases cs <;> simp [zipWith3]
  | cons a as ih =>
    cases bs with
    | nil => simp [zipWith3]
    | cons b bs =>
      cases cs with
      | nil => simp [zipWith3]
      | cons c cs =>
        simp only [zipWith3, List.length_cons, ih]
        omega

/-- Adding the draw stream preserves the length. -/
theorem addIdxFrom_length (u : ℕ → K) (xs : List K) :
    ∀ i, (addIdxFrom u i xs).length = xs.length := by
  induction xs with
  | nil => intro i; rfl
  | cons x xs ih => intro i; simp [addIdxFrom, ih]

/-- Adding the draw stream preserves the length. -/
theorem addIdx_length (xs : List K) (u : ℕ → K) :
    (addIdx xs u).length = xs.length :=
  addIdxFrom_length u xs 0

/-- `smooth` preserves the length. -/
theorem smooth_length (rexp : K → K) (xs : List K) (alpha : K) (beta : Option K) :
    (smooth rexp xs alpha beta).length = xs.length := by
  simp [smooth]

/-- Masked assignment preserves the length. -/
theorem maskedAssign_length (h : ℕ) (hs : List ℕ) (xs vals : List K) :
    (maskedAssign h hs xs vals).length = xs.length := by
  induction hs generalizing xs vals with
  | nil => cases xs <;> simp [maskedAssign]
  | cons hh hs ih =>
    cases xs with
    | nil => simp [maskedAssign]
    | cons x xs =>
      by_cases hcase : hh = h
      · simp [maskedAssign, hcase, ih]
      · simp [maskedAssign, hcase, ih]

/-- The hour array has one entry per time step. -/
theorem hoursList_length (p : Params K) (n : ℕ) : (hoursList p n).length = n := by
  simp [hoursList]

/-- The resampled output has exactly `Nt` entries. -/
theorem resampledOutput_length (cubicInterp : List K → List K → K → K)
    (p : Params K) (sp : List K) (tol : K) :
    (resampledOutput cubicInterp p sp tol).length = NtInter p := by
  simp [resampledOutput, linspace_length]

/-- A successful night mask has one entry per time step. -/
theorem nightMask_length (rexp : K → K) (cfg dts : List ℕ) (dtm nb : ℕ)
    (tm : List K) (h : nightMask rexp cfg dts dtm nb = .ok tm) :
    tm.length = dts.length := by
  simp only [nightMask] at h
  split at h
  · split at h
    · simp at h
    · split at h
      · simp at h
      · simp only [Except.ok.injEq] at h
        subst h
        simp [maskedAssign_length]
  · simp at h

/-- A successful force-zero step keeps the (common) length. -/
theorem forceZero_length (margin : ℕ) (dts : List ℕ) (o out : List K)
    (h : forceZero margin dts o = .ok out) :
    out.length = min o.length dts.length := by
  simp only [forceZero] at h
  split at h
  · simp at h
  · split at h
    · simp at h
    · simp only [Except.ok.injEq] at h
      subst h
      simp only [List.length_zipWith]
      omega

/-- A successful night-masked output has exactly `Nt` entries. -/
theorem afterNight_length (rexp : K → K) (cubicInterp : List K → List K → K → K)
    (p : Params K) (sp : List K) (tol : K) (o : List K)
    (h : afterNight rexp cubicInterp p sp tol = .ok o) :
    o.length = NtInter p := by
  simp only [afterNight] at h
  split at h
  · simp only [Except.ok.injEq] at h
    subst h
    exact resampledOutput_length cubicInterp p sp tol
  · split at h
    · simp at h
    · simp only [Except.ok.injEq] at h
      subst h
      rename_i cfg heq
      have htm := nightMask_length _ _ _ _ _ _ heq
      simp only [List.length_zipWith, resampledOutput_length, htm,
        hoursList_length]
      omega

/-- A successful pattern pipeline has exactly `Nt` entries. -/
theorem patternPipeline_length (rexp : K → K)
    (cubicInterp : List K → List K → K → K)
    (p : Params K) (sp : List K) (tol : K) (out : List K)
    (h : patternPipeline rexp cubicInterp p sp tol = .ok out) :
    out.length = NtInter p := by
  unfold patternPipeline at h
  split at h
  · simp at h
  · rename_i out2 heq
    split at h
    · simp only [Except.ok.injEq] at h
      subst h
      exact afterNight_length _ _ _ _ _ _ heq
    · have h2 := afterNight_length _ _ _ _ _ _ heq
      have h3 := forceZero_length _ _ _ _ h
      rw [h3, h2, hoursList_length]
      omega

/-- A successful `compute_solar_pattern` has exactly `Nt` entries. -/
theorem compute_solar_pattern_length (rexp : K → K)
    (cubicInterp : List K → List K → K → K)
    (p : Params K) (sp : List K) (tol : K) (out : List K)
    (h : compute_solar_pattern rexp cubicInterp p sp tol = .ok out) :
    out.length = NtInter p := by
  unfold compute_solar_pattern at h
  split at h
  · simp at h
  · exact patternPipeline_length _ _ _ _ _ _ h

/-- C4: for every valid `(T, dt)`, the series returned by
`compute_wind_series` and `compute_solar_series`, and the reference pattern
returned by `compute_solar_pattern`, have length exactly `T // dt + 1`
(given the NoiseField contract that interpolated noise signals have the
length of the time grid). -/
theorem claim_C4_lengths {K : Type} [LinearOrderedField K]
    (rexp rcos : K → K) (pi : K)
    (interpolate_noise : List K → Params K → List K → K → Bool → List K)
    (cubicInterp : List K → List K → K → K)
    (prng : K → K → ℕ → K)
    (locations : List K) (Pmax : K)
    (long_noise medium_noise short_noise solar_noise : List K)
    (p : Params K) (smoothdist : K) (add_dim : Bool) (tol : K)
    (solar_pattern : List K) (time_scale : K) (scaleC : Option K)
    (hI : ∀ (noise : List K) (locs : List K) (tsc : K),
      (interpolate_noise noise p locs tsc add_dim).length = NtInter p) :
    (compute_wind_series rexp rcos pi interpolate_noise prng locations Pmax
        long_noise medium_noise short_noise p smoothdist add_dim tol).length
      = p.T / p.dt + 1 ∧
    (∀ out, compute_solar_pattern rexp cubicInterp p solar_pattern tol
        = Except.ok out → out.length = p.T / p.dt + 1) ∧
    (∀ out, compute_solar_series rexp interpolate_noise cubicInterp prng
        locations Pmax solar_noise p smoothdist solar_pattern time_scale
        add_dim scaleC tol = Except.ok out →
      out.length = p.T / p.dt + 1) := by
  refine ⟨?_, ?_, ?_⟩
  · simp only [compute_wind_series]
    simp only [List.length_map, smooth_length, addIdx_length, zipWith3_length,
      List.length_zipWith, linspace_length, hI]
    simp [NtInter]
  · intro out h
    exact compute_solar_pattern_length _ _ _ _ _ _ h
  · intro out hres
    unfold compute_solar_series at hres
    rcases hpat : compute_solar_pattern rexp cubicInterp p solar_pattern tol
      with e | pat
    · rw [hpat] at hres; cases hres
    · rw [hpat] at hres
      simp only [Except.ok.injEq] at hres
      subst hres
      have hp := compute_solar_pattern_length _ _ _ _ _ _ hpat
      simp only [List.length_map, smooth_length, addIdx_length,
        List.length_zipWith, hp, hI]
      simp [NtInter]

/-- Witness for C4 on the degenerate one-step grid. -/
theorem claim_C4_lengths_witness :
    (∀ (noise locs : List ℝ) (tsc : ℝ), [(0:ℝ)].length = NtInter (pZero ℝ)) ∧
    ((compute_wind_series Real.exp (fun _ => 0) 0 (fun _ _ _ _ _ => [(0:ℝ)])
        (fun _ _ _ => 0) [] 1 [0] [0] [0] (pZero ℝ) 0 false 0).length
      = (pZero ℝ).T / (pZero ℝ).dt + 1 ∧
    (∀ out, compute_solar_pattern Real.exp (fun _ _ _ => 0) (pZero ℝ) [0] 0
        = Except.ok out → out.length = (pZero ℝ).T / (pZero ℝ).dt + 1) ∧
    (∀ out, compute_solar_series Real.exp (fun _ _ _ _ _ => [(0:ℝ)])
        (fun _ _ _ => 0) (fun _ _ _ => 0) [] 1 [0] (pZero ℝ) 0 [0] 0 false
        none 0 = Except.ok out →
      out.length = (pZero ℝ).T / (pZero ℝ).dt + 1)) :=
  ⟨fun _ _ _ => rfl,
    claim_C4_lengths Real.exp (fun _ => 0) 0 (fun _ _ _ _ _ => [(0:ℝ)])
      (fun _ _ _ => 0) (fun _ _ _ => 0) [] 1 [0] [0] [0] [0] (pZero ℝ) 0 false 0
      [0] 0 none (fun _ _ _ => rfl)⟩

/-- A failing night mask never fails with the data-insufficiency error. -/
theorem nightMask_error_not_data (rexp : K → K) (cfg dts : List ℕ)
    (dtm nb : ℕ) (e : PatternError)
    (h : nightMask rexp cfg dts dtm nb = .error e) : e.isData = false := by
  simp only [nightMask] at h
  split at h
  · split at h
    · simp only [Except.error.injEq] at h
      subst h; rfl
    · split at h
      · simp only [Except.error.injEq] at h
        subst h; rfl
      · simp at h
  · simp only [Except.error.injEq] at h
    subst h; rfl

/-- A failing force-zero step never fails with the data-insufficiency
error. -/
theorem forceZero_error_not_data (margin : ℕ) (dts : List ℕ) (o : List K)
    (e : PatternError) (h : forceZero margin dts o = .error e) :
    e.isData = false := by
  simp only [forceZero] at h
  split at h
  · simp only [Except.error.injEq] at h
    subst h; rfl
  · split at h
    · simp only [Except.error.injEq] at h
      subst h; rfl
    · simp at h

/-- A failing night-mask application never fails with the
data-insufficiency error. -/
theorem afterNight_error_not_data (rexp : K → K)
    (cubicInterp : List K → List K → K → K) (p : Params K) (sp : List K)
    (tol : K) (e : PatternError)
    (h : afterNight rexp cubicInterp p sp tol = .error e) :
    e.isData = false := by
  simp only [afterNight] at h
  split at h
  · simp at h
  · split at h
    · rename_i heq
      simp only [Except.error.injEq] at h
      subst h
      exact nightMask_error_not_data _ _ _ _ _ _ heq
    · simp at h

/-- A failing pattern pipeline never fails with the data-insufficiency
error. -/
theorem patternPipeline_error_not_data (rexp : K → K)
    (cubicInterp : List K → List K → K → K) (p : Params K) (sp : List K)
    (tol : K) (e : PatternError)
    (h : patternPipeline rexp cubicInterp p sp tol = .error e) :
    e.isData = false := by
  unfold patternPipeline at h
  split at h
  · rename_i heq
    simp only [Except.error.injEq] at h
    subst h
    exact afterNight_error_not_data _ _ _ _ _ _ heq
  · split at h
    · simp at h
    · exact forceZero_error_not_data _ _ _ _ h

/-- When at least `4*8760` values are present, the zonal branch only reads
the first `4*8760` of them. -/
theorem zonalAverage_take (sp : List K) (hge : 8760 * 4 ≤ sp.length) :
    zonalAverage sp = zonalAverage (sp.take (8760 * 4)) := by
  simp only [zonalAverage]
  have h1 : ¬ (sp.length < 8760 * 4) := by omega
  have h2 : (sp.take (8760 * 4)).length = 8760 * 4 := by
    simp [List.length_take]
    omega
  rw [if_neg h1, if_neg (by rw [h2]; omega), List.take_take]
  simp

/-- C5: in zonal mode, `compute_solar_pattern` fails with the
data-insufficiency error (reporting the observed and required lengths) if
and only if the raw irradiance array is shorter than `4*8760` values, and
in that case produces no output; when the array has length at least
`4*8760` it is truncated to exactly `4*8760` values before averaging (the
result only depends on the first `4*8760` values). -/
theorem claim_C5_zonal_insufficiency {K : Type} [LinearOrderedField K]
    (rexp : K → K) (cubicInterp : List K → List K → K → K)
    (p : Params K) (sp : List K) (tol : K)
    (hz : p.useZonalSolarPattern = true) :
    ((∃ e, compute_solar_pattern rexp cubicInterp p sp tol = .error e ∧
        e.isData = true) ↔ sp.length < 4 * 8760) ∧
    (sp.length < 4 * 8760 →
      compute_solar_pattern rexp cubicInterp p sp tol
        = .error (.insufficientData sp.length (4 * 8760))) ∧
    (4 * 8760 ≤ sp.length →
      compute_solar_pattern rexp cubicInterp p sp tol
        = compute_solar_pattern rexp cubicInterp p (sp.take (4 * 8760)) tol) := by
  have hshort : sp.length < 4 * 8760 →
      compute_solar_pattern rexp cubicInterp p sp tol
        = .error (.insufficientData sp.length (4 * 8760)) := by
    intro hlen
    have hlt : sp.length < 8760 * 4 := by omega
    simp only [compute_solar_pattern, hz, if_true, zonalAverage, hlt]
  refine ⟨⟨?_, ?_⟩, hshort, ?_⟩
  · rintro ⟨e, he, hd⟩
    by_contra hlen
    push_neg at hlen
    have hlt : ¬ (sp.length < 8760 * 4) := by omega
    simp only [compute_solar_pattern, hz, if_true, zonalAverage, hlt] at he
    norm_num at he
    have := patternPipeline_error_not_data _ _ _ _ _ _ he
    rw [this] at hd
    cases hd
  · intro hlen
    exact ⟨.insufficientData sp.length (4 * 8760), hshort hlen, rfl⟩
  · intro hge
    have hzz := zonalAverage_take sp (by omega)
    simp only [compute_solar_pattern, hz, if_true]
    rw [hzz]

/-- Witness for C5 on the empty zonal array. -/
theorem claim_C5_zonal_insufficiency_witness :
    (pZonal ℝ).useZonalSolarPattern = true ∧
    (((∃ e, compute_solar_pattern Real.exp (fun _ _ _ => 0) (pZonal ℝ) [] 0
        = .error e ∧ e.isData = true) ↔ ([] : List ℝ).length < 4 * 8760) ∧
    (([] : List ℝ).length < 4 * 8760 →
      compute_solar_pattern Real.exp (fun _ _ _ => 0) (pZonal ℝ) [] 0
        = .error (.insufficientData ([] : List ℝ).length (4 * 8760))) ∧
    (4 * 8760 ≤ ([] : List ℝ).length →
      compute_solar_pattern Real.exp (fun _ _ _ => 0) (pZonal ℝ) [] 0
        = compute_solar_pattern Real.exp (fun _ _ _ => 0) (pZonal ℝ)
          (([] : List ℝ).take (4 * 8760)) 0)) :=
  ⟨rfl, claim_C5_zonal_insufficiency Real.exp (fun _ _ _ => 0) (pZonal ℝ) [] 0 rfl⟩

/-- The running fold of `min` never exceeds its initial value. -/
theorem foldl_min_le_init (xs : List K) : ∀ x : K, xs.foldl min x ≤ x := by
  induction xs with
  | nil => intro x; exact le_refl x
  | cons y ys ih =>
    intro x
    simp only [List.foldl_cons]
    exact le_trans (ih (min x y)) (min_le_left x y)

/-- The running fold of `min` is below every list element. -/
theorem foldl_min_le_mem (xs : List K) :
    ∀ (x a : K), a ∈ xs → xs.foldl min x ≤ a := by
  induction xs with
  | nil => intro x a ha; simp at ha
  | cons y ys ih =>
    intro x a ha
    simp only [List.foldl_cons]
    rcases List.mem_cons.1 ha with rfl | ha'
    · exact le_trans (foldl_min_le_init ys (min x a)) (min_le_right x a)
    · exact ih (min x y) a ha'

/-- The running fold of `min` is the initial value or a list element. -/
theorem foldl_min_choice (xs : List K) :
    ∀ x : K, xs.foldl min x = x ∨ xs.foldl min x ∈ xs := by
  induction xs with
  | nil => intro x; exact Or.inl rfl
  | cons y ys ih =>
    intro x
    simp only [List.foldl_cons]
    rcases ih (min x y) with h | h
    · rcases min_choice x y with h2 | h2
      · left; rw [h, h2]
      · right; rw [h, h2]; exact List.mem_cons_self y ys
    · right; exact List.mem_cons_of_mem y h

/-- The running fold of `max` is above its initial value. -/
theorem foldl_max_init_le (xs : List K) : ∀ x : K, x ≤ xs.foldl max x := by
  induction xs with
  | nil => intro x; exact le_refl x
  | cons y ys ih =>
    intro x
    simp only [List.foldl_cons]
    exact le_trans (le_max_left x y) (ih (max x y))

/-- The running fold of `max` is above every list element. -/
theorem foldl_max_mem_le (xs : List K) :
    ∀ (x a : K), a ∈ xs → a ≤ xs.foldl max x := by
  induction xs with
  | nil => intro x a ha; simp at ha
  | cons y ys ih =>
    intro x a ha
    simp only [List.foldl_cons]
    rcases List.mem_cons.1 ha with rfl | ha'
    · exact le_trans (le_max_right x a) (foldl_max_init_le ys (max x a))
    · exact ih (max x y) a ha'

/-- The running fold of `max` is the initial value or a list element. -/
theorem foldl_max_choice (xs : List K) :
    ∀ x : K, xs.foldl max x = x ∨ xs.foldl max x ∈ xs := by
  induction xs with
  | nil => intro x; exact Or.inl rfl
  | cons y ys ih =>
    intro x
    simp only [List.foldl_cons]
    rcases ih (max x y) with h | h
    · rcases max_choice x y with h2 | h2
      · left; rw [h, h2]
      · right; rw [h, h2]; exact List.mem_cons_self y ys
    · right; exact List.mem_cons_of_mem y h

/-- `np.min` is a lower bound of the array. -/
theorem listMin_le (xs : List K) (a : K) (ha : a ∈ xs) : listMin xs ≤ a := by
  cases xs with
  | nil => simp at ha
  | cons x ys =>
    simp only [listMin]
    rcases List.mem_cons.1 ha with rfl | ha'
    · exact foldl_min_le_init ys a
    · exact foldl_min_le_mem ys x a ha'

/-- `np.max` is an upper bound of the array. -/
theorem le_listMax (xs : List K) (a : K) (ha : a ∈ xs) : a ≤ listMax xs := by
  cases xs with
  | nil => simp at ha
  | cons x ys =>
    simp only [listMax]
    rcases List.mem_cons.1 ha with rfl | ha'
    · exact foldl_max_init_le ys a
    · exact foldl_max_mem_le ys x a ha'

/-- `np.min` of a non-empty array is attained. -/
theorem listMin_mem (xs : List K) (hne : xs ≠ []) : listMin xs ∈ xs := by
  cases xs with
  | nil => exact absurd rfl hne
  | cons x ys =>
    simp only [listMin]
    rcases foldl_min_choice ys x with h | h
    · rw [h]; exact List.mem_cons_self x ys
    · exact List.mem_cons_of_mem x h

/-- `np.max` of a non-empty array is attained. -/
theorem listMax_mem (xs : List K) (hne : xs ≠ []) : listMax xs ∈ xs := by
  cases xs with
  | nil => exact absurd rfl hne
  | cons x ys =>
    simp only [listMax]
    rcases foldl_max_choice ys x with h | h
    · rw [h]; exact List.mem_cons_self x ys
    · exact List.mem_cons_of_mem x h

/-- On a non-constant array, min-max normalization produces values in
`[0,1]` whose minimum is exactly 0 and maximum exactly 1. -/
theorem normalizePattern_minmax (xs : List K) (hne : xs ≠ [])
    (hlt : listMin xs < listMax xs) :
    (∀ v ∈ normalizePattern xs, 0 ≤ v ∧ v ≤ 1) ∧
    listMin (normalizePattern xs) = 0 ∧ listMax (normalizePattern xs) = 1 := by
  have hd : (0:K) < listMax xs - listMin xs := by linarith
  have hbounds : ∀ v ∈ normalizePattern xs, 0 ≤ v ∧ v ≤ 1 := by
    intro v hv
    rcases List.mem_map.1 hv with ⟨w, hw, rfl⟩
    constructor
    · exact div_nonneg (by linarith [listMin_le xs w hw]) hd.le
    · rw [div_le_one hd]
      linarith [le_listMax xs w hw]
  have hnne : normalizePattern xs ≠ [] := by
    simpa [normalizePattern] using hne
  have h0mem : (0:K) ∈ normalizePattern xs := by
    refine List.mem_map.2 ⟨listMin xs, listMin_mem xs hne, ?_⟩
    simp
  have h1mem : (1:K) ∈ normalizePattern xs := by
    refine List.mem_map.2 ⟨listMax xs, listMax_mem xs hne, ?_⟩
    exact div_self hd.ne'
  refine ⟨hbounds, ?_, ?_⟩
  · refine le_antisymm (listMin_le _ _ h0mem) ?_
    exact (hbounds _ (listMin_mem _ hnne)).1
  · refine le_antisymm ?_ (le_listMax _ _ h1mem)
    exact (hbounds _ (listMax_mem _ hnne)).2

/-- The running fold of `min` over a constant array is the constant. -/
theorem foldl_min_replicate (c : K) (n : ℕ) :
    (List.replicate n c).foldl min c = c := by
  induction n with
  | zero => rfl
  | succ m ih => simp [List.replicate_succ, List.foldl_cons, min_self, ih]

/-- The running fold of `max` over a constant array is the constant. -/
theorem foldl_max_replicate (c : K) (n : ℕ) :
    (List.replicate n c).foldl max c = c := by
  induction n with
  | zero => rfl
  | succ m ih => simp [List.replicate_succ, List.foldl_cons, max_self, ih]

/-- On a constant array the normalization divisor is zero and (with the
field convention `x/0 = 0`) the normalized array is all zeros — in the
source this is a silent division by zero producing NaNs, not a normalized
pattern. -/
theorem normalizePattern_const (c : K) (n : ℕ) :
    listMax (List.replicate n c) - listMin (List.replicate n c) = 0 ∧
    normalizePattern (List.replicate n c) = List.replicate n 0 := by
  cases n with
  | zero => simp [normalizePattern, listMin, listMax]
  | succ m =>
    have hmin : listMin (List.replicate (m+1) c) = c := by
      simp [listMin, List.replicate_succ, foldl_min_replicate]
    have hmax : listMax (List.replicate (m+1) c) = c := by
      simp [listMax, List.replicate_succ, foldl_max_replicate]
    constructor
    · rw [hmin, hmax]; ring
    · simp only [normalizePattern, hmin, hmax, List.map_replicate, sub_self,
        div_zero]

/-- An element of `zipWith` comes from elements of both lists. -/
theorem mem_zipWith_exists {α β γ : Type} (f : α → β → γ) (as : List α)
    (bs : List β) (v : γ) (hv : v ∈ List.zipWith f as bs) :
    ∃ a ∈ as, ∃ b ∈ bs, v = f a b := by
  induction as generalizing bs with
  | nil => simp at hv
  | cons a as ih =>
    cases bs with
    | nil => simp at hv
    | cons b bs =>
      simp only [List.zipWith_cons_cons, List.mem_cons] at hv
      rcases hv with rfl | hv'
      · exact ⟨a, List.mem_cons_self a as, b, List.mem_cons_self b bs, rfl⟩
      · rcases ih bs hv' with ⟨a', ha', b', hb', rfl⟩
        exact ⟨a', List.mem_cons_of_mem a ha', b', List.mem_cons_of_mem b hb', rfl⟩

/-- A predicate holding on `0`, on the base array and on the assigned
values holds on every element of the masked assignment. -/
theorem maskedAssign_forall (P : K → Prop) (hP0 : P 0) (h : ℕ)
    (hs : List ℕ) (xs vals : List K)
    (hxs : ∀ v ∈ xs, P v) (hvals : ∀ v ∈ vals, P v) :
    ∀ v ∈ maskedAssign h hs xs vals, P v := by
  induction hs generalizing xs vals with
  | nil =>
    cases xs with
    | nil => intro v hv; simp [maskedAssign] at hv
    | cons x xs => intro v hv; simp only [maskedAssign] at hv; exact hxs v hv
  | cons hh hs ih =>
    cases xs with
    | nil => intro v hv; simp [maskedAssign] at hv
    | cons x xs =>
      intro v hv
      by_cases hcase : hh = h
      · simp only [maskedAssign, if_pos hcase, List.mem_cons] at hv
        rcases hv with rfl | hv'
        · cases vals with
          | nil => exact hP0
          | cons w ws => exact hvals w (List.mem_cons_self w ws)
        · refine ih xs vals.tail (fun w hw => hxs w (List.mem_cons_of_mem x hw))
            (fun w hw => hvals w (List.mem_of_mem_tail hw)) v hv'
      · simp only [maskedAssign, if_neg hcase, List.mem_cons] at hv
        rcases hv with rfl | hv'
        · exact hxs v (List.mem_cons_self v xs)
        · exact ih xs vals (fun w hw => hxs w (List.mem_cons_of_mem x hw))
            hvals v hv'

/-- Every element of the resampled output is non-negative (negatives are
clipped; the `tol` step only writes zeros or keeps clipped values). -/
theorem resampledOutput_nonneg (cubicInterp : List K → List K → K → K)
    (p : Params K) (sp : List K) (tol : K) :
    ∀ v ∈ resampledOutput cubicInterp p sp tol, 0 ≤ v := by
  intro v hv
  simp only [resampledOutput] at hv
  rcases List.mem_map.1 hv with ⟨w2, hw2, rfl⟩
  rcases List.mem_map.1 hw2 with ⟨w1, hw1, rfl⟩
  by_cases h1 : w1 > 0
  · by_cases h2 : (if w1 > 0 then w1 else 0) < tol
    · rw [if_pos h2]
    · rw [if_neg h2, if_pos h1]
      rw [if_pos h1] at h2
      exact le_of_lt h1
  · by_cases h2 : (if w1 > 0 then w1 else 0) < tol
    · rw [if_pos h2]
    · rw [if_neg h2, if_neg h1]

/-- If the interpolant never exceeds 1 on its queries, neither does the
resampled output. -/
theorem resampledOutput_le_one (cubicInterp : List K → List K → K → K)
    (p : Params K) (sp : List K) (tol : K)
    (hI : ∀ xs ys x, cubicInterp xs ys x ≤ 1) :
    ∀ v ∈ resampledOutput cubicInterp p sp tol, v ≤ 1 := by
  intro v hv
  simp only [resampledOutput] at hv
  rcases List.mem_map.1 hv with ⟨w2, hw2, rfl⟩
  rcases List.mem_map.1 hw2 with ⟨w1, hw1, rfl⟩
  rcases List.mem_map.1 hw1 with ⟨x, hx, rfl⟩
  set y := cubicInterp (tPattern (nRepet p.endMinOfYear sp.length))
    (stackPattern sp (nRepet p.endMinOfYear sp.length)) x with hy
  have hle : y ≤ 1 := hI _ _ x
  by_cases h2 : (if y > 0 then y else 0) < tol
  · rw [if_pos h2]; exact zero_le_one
  · rw [if_neg h2]
    by_cases h1 : y > 0
    · rw [if_pos h1]; exact hle
    · rw [if_neg h1]; exact zero_le_one

/-- Every entry of a successful night mask lies in `[0,1]` (over the
reals, where the sigmoid ramps lie in `(0,1)`). -/
theorem nightMask_mem_unit (cfg dts : List ℕ) (dtm nb : ℕ) (tm : List ℝ)
    (h : nightMask Real.exp cfg dts dtm nb = .ok tm) :
    ∀ v ∈ tm, 0 ≤ v ∧ v ≤ 1 := by
  have hsig : ∀ z : ℝ, 0 ≤ 1 / (1 + Real.exp z) ∧ 1 / (1 + Real.exp z) ≤ 1 := by
    intro z
    have hpos : (0:ℝ) < 1 + Real.exp z := by positivity
    constructor
    · positivity
    · rw [div_le_one hpos]
      linarith [Real.exp_pos z]
  simp only [nightMask] at h
  split at h
  · split at h
    · simp at h
    · split at h
      · simp at h
      · simp only [Except.ok.injEq] at h
        subst h
        refine maskedAssign_forall _ ⟨le_refl 0, zero_le_one⟩ _ _ _ _ ?_ ?_
        · refine maskedAssign_forall _ ⟨le_refl 0, zero_le_one⟩ _ _ _ _ ?_ ?_
          · intro v hv
            rcases List.mem_map.1 hv with ⟨hhh, hmem, rfl⟩
            by_cases hc : hhh ∈ cfg
            · simp [hc]
            · simp [hc]
          · intro v hv
            rcases List.mem_append.1 hv with hv' | hv'
            · rcases List.mem_flatten.1 hv' with ⟨l, hl, hvl⟩
              rcases List.mem_replicate.1 hl with ⟨-, rfl⟩
              rcases List.mem_map.1 hvl with ⟨i, hi, rfl⟩
              exact hsig _
            · rcases List.mem_replicate.1 hv' with ⟨-, rfl⟩
              exact ⟨le_refl 0, zero_le_one⟩
        · intro v hv
          rcases List.mem_append.1 hv with hv' | hv'
          · rcases List.mem_replicate.1 hv' with ⟨-, rfl⟩
            exact ⟨le_refl 0, zero_le_one⟩
          · rcases List.mem_flatten.1 hv' with ⟨l, hl, hvl⟩
            rcases List.mem_replicate.1 hl with ⟨-, rfl⟩
            rcases List.mem_map.1 hvl with ⟨i, hi, rfl⟩
            exact hsig _
  · simp at h

/-- Every element of a successful force-zero output is zero or an element
of the input. -/
theorem forceZero_mem (margin : ℕ) (dts : List ℕ) (o out : List K)
    (h : forceZero margin dts o = .ok out) :
    ∀ v ∈ out, v = 0 ∨ v ∈ o := by
  simp only [forceZero] at h
  split at h
  · simp at h
  · split at h
    · simp at h
    · simp only [Except.ok.injEq] at h
      subst h
      intro v hv
      rcases mem_zipWith_exists _ _ _ _ hv with ⟨a, ha, b, hb, rfl⟩
      split
      · exact Or.inl rfl
      · rcases mem_zipWith_exists _ _ _ _ ha with ⟨a', ha', b', hb', rfl⟩
        split
        · exact Or.inl rfl
        · exact Or.inr ha'

/-- Every element of a successful night-masked output is non-negative. -/
theorem afterNight_nonneg (cubicInterp : List ℝ → List ℝ → ℝ → ℝ)
    (p : Params ℝ) (sp : List ℝ) (tol : ℝ) (o : List ℝ)
    (h : afterNight Real.exp cubicInterp p sp tol = .ok o) :
    ∀ v ∈ o, 0 ≤ v := by
  simp only [afterNight] at h
  split at h
  · simp only [Except.ok.injEq] at h
    subst h
    exact resampledOutput_nonneg _ _ _ _
  · split at h
    · simp at h
    · rename_i heq
      simp only [Except.ok.injEq] at h
      subst h
      intro v hv
      rcases mem_zipWith_exists _ _ _ _ hv with ⟨a, ha, b, hb, rfl⟩
      exact mul_nonneg (resampledOutput_nonneg _ _ _ _ a ha)
        (nightMask_mem_unit _ _ _ _ _ heq b hb).1

/-- With a 1-bounded interpolant, every element of a successful
night-masked output is at most 1. -/
theorem afterNight_le_one (cubicInterp : List ℝ → List ℝ → ℝ → ℝ)
    (p : Params ℝ) (sp : List ℝ) (tol : ℝ) (o : List ℝ)
    (hI : ∀ xs ys x, cubicInterp xs ys x ≤ 1)
    (h : afterNight Real.exp cubicInterp p sp tol = .ok o) :
    ∀ v ∈ o, v ≤ 1 := by
  simp only [afterNight] at h
  split at h
  · simp only [Except.ok.injEq] at h
    subst h
    exact resampledOutput_le_one _ _ _ _ hI
  · split at h
    · simp at h
    · rename_i heq
      simp only [Except.ok.injEq] at h
      subst h
      intro v hv
      rcases mem_zipWith_exists _ _ _ _ hv with ⟨a, ha, b, hb, rfl⟩
      have hb01 := nightMask_mem_unit _ _ _ _ _ heq b hb
      have ha0 := resampledOutput_nonneg _ _ _ _ a ha
      have ha1 := resampledOutput_le_one _ _ _ _ hI a ha
      calc a * b ≤ 1 * 1 := by
            apply mul_le_mul ha1 hb01.2 hb01.1 zero_le_one
      _ = 1 := one_mul 1

/-- Every element of a successful `compute_solar_pattern` is
non-negative. -/
theorem compute_solar_pattern_nonneg (cubicInterp : List ℝ → List ℝ → ℝ → ℝ)
    (p : Params ℝ) (sp : List ℝ) (tol : ℝ) (out : List ℝ)
    (h : compute_solar_pattern Real.exp cubicInterp p sp tol = .ok out) :
    ∀ v ∈ out, 0 ≤ v := by
  unfold compute_solar_pattern at h
  split at h
  · simp at h
  · unfold patternPipeline at h
    split at h
    · simp at h
    · rename_i heq
      split at h
      · simp only [Except.ok.injEq] at h
        subst h
        exact afterNight_nonneg _ _ _ _ _ heq
      · intro v hv
        rcases forceZero_mem _ _ _ _ h v hv with rfl | hmem
        · exact le_refl 0
        · exact afterNight_nonneg _ _ _ _ _ heq v hmem

/-- With a 1-bounded interpolant, every element of a successful
`compute_solar_pattern` is at most 1. -/
theorem compute_solar_pattern_le_one (cubicInterp : List ℝ → List ℝ → ℝ → ℝ)
    (p : Params ℝ) (sp : List ℝ) (tol : ℝ) (out : List ℝ)
    (hI : ∀ xs ys x, cubicInterp xs ys x ≤ 1)
    (h : compute_solar_pattern Real.exp cubicInterp p sp tol = .ok out) :
    ∀ v ∈ out, v ≤ 1 := by
  unfold compute_solar_pattern at h
  split at h
  · simp at h
  · unfold patternPipeline at h
    split at h
    · simp at h
    · rename_i heq
      split at h
      · simp only [Except.ok.injEq] at h
        subst h
        exact afterNight_le_one _ _ _ _ _ hI heq
      · intro v hv
        rcases forceZero_mem _ _ _ _ h v hv with rfl | hmem
        · exact zero_le_one
        · exact afterNight_le_one _ _ _ _ _ hI heq v hmem

/-- `getD` on a constant array returns the constant. -/
theorem getD_replicate (c : K) (n : ℕ) :
    ∀ i : ℕ, (List.replicate n c).getD i c = c := by
  induction n with
  | zero => intro i; simp
  | succ m ih =>
    intro i
    cases i with
    | zero => simp [List.replicate_succ]
    | succ j => simpa [List.replicate_succ] using ih j

/-- The zonal branch on a constant all-zero 4-year array silently divides
by zero; with the field convention `x/0 = 0` the result is the all-zero
"pattern" (in numpy it is an array of NaNs), not a min-max normalized
pattern. -/
theorem zonalAverage_zero :
    zonalAverage (List.replicate (8760 * 4) (0:K)) =
      Except.ok (List.replicate 8760 0) := by
  have hlen : (List.replicate (8760*4) (0:K)).length = 8760*4 :=
    List.length_replicate _ _
  simp only [zonalAverage, hlen]
  rw [if_neg (by omega)]
  have htake : (List.replicate (8760*4) (0:K)).take (8760*4)
      = List.replicate (8760*4) 0 := by
    rw [List.take_replicate]
    norm_num
  rw [htake]
  have hentry : ∀ h ∈ List.range 8760, (((List.range 4).map
      (fun y => (List.replicate (8760*4) (0:K)).getD (y * 8760 + h) 0)).sum)
      / ((4:ℕ) : K) = 0 := by
    intro h hmem
    simp only [getD_replicate]
    simp
  rw [List.map_congr_left hentry, List.map_const', List.length_range,
    (normalizePattern_const (0:K) 8760).2]

/-- `np.max` of an all-zero array is 0. -/
theorem listMax_replicate_zero (n : ℕ) :
    listMax (List.replicate n (0:K)) = 0 := by
  cases n with
  | zero => rfl
  | succ m => simp [listMax, List.replicate_succ, foldl_max_replicate]

/-- C6 counterexample: the claim "every value of the returned
ReferencePattern lies in [0,1]" fails — the code clips below 0 but never
above 1, so an interpolant value of 2 (cubic overshoot) is returned as is;
and for a constant (all-zero) zonal input the "normalized" averaged pattern
has maximum 0, not 1. -/
theorem claim_C6_counterexample :
    compute_solar_pattern Real.exp (fun _ _ _ => 2) (pZero ℝ) [0] 0
      = Except.ok [2] ∧ ¬ ((2:ℝ) ≤ 1) ∧
    zonalAverage (List.replicate (8760 * 4) (0:ℝ))
      = Except.ok (List.replicate 8760 0) ∧
    listMax (List.replicate 8760 (0:ℝ)) = 0 ∧ (0:ℝ) ≠ 1 := by
  refine ⟨?_, by norm_num, zonalAverage_zero, listMax_replicate_zero 8760,
    by norm_num⟩
  simp [compute_solar_pattern, patternPipeline, afterNight, resampledOutput,
    pZero, NtInter, linspace, nRepet, NtInterHr]

/-- C6 (amended): every value of a returned ReferencePattern is
non-negative; the values are also at most 1 provided the cubic interpolant
does not overshoot 1 (the code clips negatives but never clips above 1);
and for zonal input the min-max normalized year-averaged pattern has
minimum exactly 0 and maximum exactly 1 provided the averaged pattern is
non-constant. -/
theorem claim_C6_pattern_normalization
    (cubicInterp : List ℝ → List ℝ → ℝ → ℝ) (p : Params ℝ)
    (sp : List ℝ) (tol : ℝ) (out : List ℝ)
    (hres : compute_solar_pattern Real.exp cubicInterp p sp tol
      = Except.ok out) :
    (∀ v ∈ out, 0 ≤ v) ∧
    ((∀ xs ys x, cubicInterp xs ys x ≤ 1) → ∀ v ∈ out, v ≤ 1) ∧
    (∀ xs : List ℝ, xs ≠ [] → listMin xs < listMax xs →
      listMin (normalizePattern xs) = 0 ∧ listMax (normalizePattern xs) = 1) :=
  ⟨compute_solar_pattern_nonneg _ _ _ _ _ hres,
    fun hI => compute_solar_pattern_le_one _ _ _ _ _ hI hres,
    fun xs hne hlt => (normalizePattern_minmax xs hne hlt).2⟩

/-- Witness for the amended C6. -/
theorem claim_C6_pattern_normalization_witness :
    compute_solar_pattern Real.exp (fun _ _ _ => 0) (pZero ℝ) [0] 0
      = Except.ok [0] ∧
    (∀ v ∈ [(0:ℝ)], 0 ≤ v) ∧ (∀ v ∈ [(0:ℝ)], v ≤ 1) ∧
    (listMin (normalizePattern [(0:ℝ), 1]) = 0 ∧
      listMax (normalizePattern [(0:ℝ), 1]) = 1) := by
  have hres : compute_solar_pattern Real.exp (fun _ _ _ => 0) (pZero ℝ) [0] 0
      = Except.ok [0] := by
    simp [compute_solar_pattern, patternPipeline, afterNight, resampledOutput,
      pZero, NtInter, linspace, nRepet, NtInterHr]
  have h := claim_C6_pattern_normalization (fun _ _ _ => 0) (pZero ℝ)
    [0] 0 [0] hres
  exact ⟨hres, h.1, h.2.1 (fun _ _ _ => by norm_num),
    h.2.2 [0, 1] (by simp)
      (by norm_num [listMin, listMax, min_def, max_def])⟩

/-- C10: the zonal min-max normalization has no guard against a constant
year-averaged pattern: the result is a well-defined array in `[0,1]` (with
minimum 0 and maximum 1) under the precondition `min < max`; for a
constant averaged input the divisor `max - min` is zero and (in exact
field arithmetic, where `x/0 = 0`) the result is the junk all-zero array —
in numpy a silent division by zero producing NaNs — not a normalized
pattern. -/
theorem claim_C10_division_guard {K : Type} [LinearOrderedField K] :
    (∀ xs : List K, xs ≠ [] → listMin xs < listMax xs →
      (∀ v ∈ normalizePattern xs, 0 ≤ v ∧ v ≤ 1) ∧
      listMin (normalizePattern xs) = 0 ∧ listMax (normalizePattern xs) = 1) ∧
    (∀ (c : K) (n : ℕ),
      listMax (List.replicate n c) - listMin (List.replicate n c) = 0 ∧
      normalizePattern (List.replicate n c) = List.replicate n 0) ∧
    (zonalAverage (List.replicate (8760 * 4) (0:K))
        = Except.ok (List.replicate 8760 0) ∧
      listMax (List.replicate 8760 (0:K)) = 0) :=
  ⟨fun xs hne hlt => normalizePattern_minmax xs hne hlt,
    fun c n => normalizePattern_const c n,
    zonalAverage_zero, listMax_replicate_zero 8760⟩

/-- Witness for C10 on a concrete non-constant array. -/
theorem claim_C10_division_guard_witness :
    ([(0:ℚ), 1] ≠ []) ∧ (listMin [(0:ℚ), 1] < listMax [(0:ℚ), 1]) ∧
    (listMin (normalizePattern [(0:ℚ), 1]) = 0 ∧
      listMax (normalizePattern [(0:ℚ), 1]) = 1) :=
  ⟨by simp, by norm_num [listMin, listMax, min_def, max_def],
    ((claim_C10_division_guard (K := ℚ)).1 [0, 1] (by simp)
      (by norm_num [listMin, listMax, min_def, max_def])).2⟩

/-- Length of the tiled pattern: `pattern_length * N` repetitions. -/
theorem stackPattern_length (sp : List K) (n : ℕ) (hn : 0 < n) :
    (stackPattern sp n).length = sp.length * n := by
  have haux : ∀ (k : ℕ) (acc : List K),
      ((List.range k).foldl (fun acc _ => acc ++ sp) acc).length
        = acc.length + k * sp.length := by
    intro k
    induction k with
    | zero => intro acc; simp
    | succ m ih =>
      intro acc
      rw [List.range_succ, List.foldl_append]
      simp only [List.foldl_cons, List.foldl_nil, List.length_append]
      rw [ih]
      ring
  cases n with
  | zero => exact absurd hn (by omega)
  | succ m =>
    unfold stackPattern
    rw [haux]
    simp only [Nat.succ_sub_one, List.length_cons]
    ring

/-- Length of the hourly time axis: always `8760 * N`. -/
theorem tPattern_length (n : ℕ) : (tPattern (K := K) n).length = 8760 * n := by
  simp [tPattern]

/-- Floor-plus-one versus ceiling division over `ℕ`. -/
theorem ceil_div_formula (a L : ℕ) (hL : 0 < L) :
    (¬ L ∣ a → a / L + 1 = (a + L - 1) / L) ∧
    (L ∣ a → a / L + 1 = (a + L - 1) / L + 1) := by
  have hdm : L * (a / L) + a % L = a := Nat.div_add_mod a L
  have hcomm : a / L * L = L * (a / L) := by ring
  have hrlt : a % L < L := Nat.mod_lt a hL
  constructor
  · intro hnd
    have hr : a % L ≠ 0 := fun h => hnd (Nat.dvd_of_mod_eq_zero h)
    have hbridge : (a / L + 1) * L = L * (a / L) + L := by ring
    have h1 : a + L - 1 = a % L - 1 + (a / L + 1) * L := by omega
    rw [h1, Nat.add_mul_div_right _ _ hL,
      Nat.div_eq_of_lt (show a % L - 1 < L by omega)]
    omega
  · intro hd
    have hr : a % L = 0 := by
      obtain ⟨q, rfl⟩ := hd
      exact Nat.mul_mod_right L q
    have h1 : a + L - 1 = L - 1 + a / L * L := by omega
    rw [h1, Nat.add_mul_div_right _ _ hL,
      Nat.div_eq_of_lt (show L - 1 < L by omega)]
    omega

/-- The repetition count is always at least 1. -/
theorem nRepet_pos (endMin L : ℕ) : 0 < nRepet endMin L :=
  Nat.succ_pos _

/-- C7 counterexample: with a one-year horizon (`end_min = 525600`, so
`Nt_hours - 1 = 8760`) and the standard 8760-length pattern, the code's
repetition count is 2 while `ceil(8760/8760) = 1`; and with a legacy
pattern of length 24 (`≤ 8760`, allowed) over a one-day horizon the hourly
time axis has length `8760 * N = 17520`, not `pattern_length * N = 48`. -/
theorem claim_C7_counterexample :
    nRepet 525600 8760 = 2 ∧ (8760 + 8760 - 1) / 8760 = 1 ∧ (2:ℕ) ≠ 1 ∧
    nRepet 1440 24 = 2 ∧
    (tPattern (nRepet 1440 24) : List ℚ).length = 17520 ∧
    (stackPattern (List.replicate 24 (0:ℚ)) (nRepet 1440 24)).length = 48 ∧
    (17520:ℕ) ≠ 48 := by
  refine ⟨by decide, by decide, by decide, by decide, ?_, ?_, by decide⟩
  · rw [tPattern_length]
    decide
  · rw [stackPattern_length _ _ (nRepet_pos 1440 24)]
    simp only [List.length_replicate]
    decide

/-- C7 (amended): the repetition count is
`N = (Nt_hours - 1) // pattern_length + 1`, which equals
`ceil((Nt_hours-1)/pattern_length)` exactly when `pattern_length` does not
divide `Nt_hours - 1`, and is one larger when it does; the uniform hourly
time axis has length `8760 * N` (8760 is hard-coded), which matches the
tiled pattern's length `pattern_length * N` exactly when the pattern has
length 8760. -/
theorem claim_C7_repetition_axis {K : Type} [LinearOrderedField K]
    (endMin : ℕ) (sp : List K) (hne : sp ≠ []) :
    (nRepet endMin sp.length = (NtInterHr endMin - 1) / sp.length + 1) ∧
    (¬ sp.length ∣ (NtInterHr endMin - 1) →
      nRepet endMin sp.length
        = (NtInterHr endMin - 1 + sp.length - 1) / sp.length) ∧
    (sp.length ∣ (NtInterHr endMin - 1) →
      nRepet endMin sp.length
        = (NtInterHr endMin - 1 + sp.length - 1) / sp.length + 1) ∧
    ((tPattern (nRepet endMin sp.length) : List K).length
      = 8760 * nRepet endMin sp.length) ∧
    ((stackPattern sp (nRepet endMin sp.length)).length
      = sp.length * nRepet endMin sp.length) ∧
    (sp.length = 8760 →
      (tPattern (nRepet endMin sp.length) : List K).length
        = (stackPattern sp (nRepet endMin sp.length)).length) := by
  have hL : 0 < sp.length := List.length_pos.2 hne
  have hceil := ceil_div_formula (NtInterHr endMin - 1) sp.length hL
  refine ⟨rfl, ?_, ?_, tPattern_length _, stackPattern_length _ _ (nRepet_pos _ _), ?_⟩
  · intro hnd
    exact hceil.1 hnd
  · intro hd
    exact hceil.2 hd
  · intro h8760
    rw [tPattern_length, stackPattern_length _ _ (nRepet_pos _ _), h8760]

/-- Witness for the amended C7 on a one-element pattern. -/
theorem claim_C7_repetition_axis_witness :
    ([(0:ℚ)] ≠ []) ∧
    (nRepet 0 [(0:ℚ)].length = (NtInterHr 0 - 1) / [(0:ℚ)].length + 1) ∧
    ([(0:ℚ)].length ∣ (NtInterHr 0 - 1) →
      nRepet 0 [(0:ℚ)].length
        = (NtInterHr 0 - 1 + [(0:ℚ)].length - 1) / [(0:ℚ)].length + 1) :=
  ⟨by simp,
    (claim_C7_repetition_axis 0 [(0:ℚ)] (by simp)).1,
    (claim_C7_repetition_axis 0 [(0:ℚ)] (by simp)).2.2.1⟩

/-- `getD` through `map`, inside the array. -/
theorem getD_map_lt (f : K → K) (l : List K) (i : ℕ) (h : i < l.length) :
    (l.map f).getD i 0 = f (l.getD i 0) := by
  induction l generalizing i with
  | nil => simp at h
  | cons x xs ih =>
    cases i with
    | zero => simp
    | succ j =>
      simp only [List.map_cons, List.getD_cons_succ]
      exact ih j (by simpa using h)

/-- `getD` through `zipWith`, inside both arrays. -/
theorem getD_zipWith_lt (f : K → K → K) (as bs : List K) (i : ℕ)
    (ha : i < as.length) (hb : i < bs.length) :
    (List.zipWith f as bs).getD i 0 = f (as.getD i 0) (bs.getD i 0) := by
  induction as generalizing bs i with
  | nil => simp at ha
  | cons a as ih =>
    cases bs with
    | nil => simp at hb
    | cons b bs =>
      cases i with
      | zero => simp
      | succ j =>
        simp only [List.zipWith_cons_cons, List.getD_cons_succ]
        exact ih bs j (by simpa using ha) (by simpa using hb)

/-- `getD` through `zipWith3`, inside all three arrays. -/
theorem getD_zipWith3_lt (f : K → K → K → K) (as bs cs : List K) (i : ℕ)
    (ha : i < as.length) (hb : i < bs.length) (hc : i < cs.length) :
    (zipWith3 f as bs cs).getD i 0
      = f (as.getD i 0) (bs.getD i 0) (cs.getD i 0) := by
  induction as generalizing bs cs i with
  | nil => simp at ha
  | cons a as ih =>
    cases bs with
    | nil => simp at hb
    | cons b bs =>
      cases cs with
      | nil => simp at hc
      | cons c cs =>
        cases i with
        | zero => simp [zipWith3]
        | succ j =>
          simp only [zipWith3, List.getD_cons_succ]
          exact ih bs cs j (by simpa using ha) (by simpa using hb)
            (by simpa using hc)

/-- `getD` through the indexed draw addition (offset version). -/
theorem getD_addIdxFrom (u : ℕ → K) (xs : List K) :
    ∀ (i j : ℕ), j < xs.length →
      (addIdxFrom u i xs).getD j 0 = xs.getD j 0 + u (i + j) := by
  induction xs with
  | nil => intro i j h; simp at h
  | cons x xs ih =>
    intro i j h
    cases j with
    | zero => simp [addIdxFrom]
    | succ k =>
      simp only [addIdxFrom, List.getD_cons_succ]
      rw [ih (i + 1) k (by simpa using h)]
      have harg : i + 1 + k = i + (k + 1) := by omega
      rw [harg]

/-- `getD` through the indexed draw addition. -/
theorem getD_addIdx (xs : List K) (u : ℕ → K) (i : ℕ) (h : i < xs.length) :
    (addIdx xs u).getD i 0 = xs.getD i 0 + u i := by
  have hx := getD_addIdxFrom u xs 0 i h
  simpa using hx

/-- The in-place cap `x[x > c] = c` is the pointwise minimum. -/
theorem ite_gt_eq_min (v c : K) : (if v > c then c else v) = min v c := by
  rcases le_or_lt v c with h | h
  · rw [if_neg (not_lt.2 h), min_eq_left h]
  · rw [if_pos h, min_eq_right h.le]

/-- C8: `compute_wind_series` combines its inputs exactly as the
specification words it: `base = (0.7+0.3*seasonal)*(0.3 + std_medium*medium
+ std_long*long) + std_short*short`, then `signal = 0.1*exp(4*base)`, then
adds the uniform draw, zeroes values strictly below `tol`, applies
`smooth`, multiplies by `Pmax`, and caps at `0.95*Pmax`, in that order
(stated per time step, `windSpecValue` being the specification's
formula). -/
theorem claim_C8_wind_combination {K : Type} [LinearOrderedField K]
    (rexp rcos : K → K) (pi : K)
    (interpolate_noise : List K → Params K → List K → K → Bool → List K)
    (prng : K → K → ℕ → K)
    (locations : List K) (Pmax : K)
    (long_noise medium_noise short_noise : List K)
    (p : Params K) (smoothdist : K) (add_dim : Bool) (tol : K)
    (hM : (interpolate_noise medium_noise p locations p.mediumWindCorr
      add_dim).length = NtInter p)
    (hL : (interpolate_noise long_noise p locations p.longWindCorr
      add_dim).length = NtInter p)
    (hS : (interpolate_noise short_noise p locations p.shortWindCorr
      add_dim).length = NtInter p)
    (i : ℕ) (hi : i < NtInter p) :
    (compute_wind_series rexp rcos pi interpolate_noise prng locations Pmax
        long_noise medium_noise short_noise p smoothdist add_dim tol).getD i 0
      = windSpecValue rexp Pmax tol p.stdShortWindNoise p.stdMediumWindNoise
          p.stdLongWindNoise
          (fun j => rcos (2 * pi / (365 * 24 * 60) *
            ((linspace 0 (p.T : K) (NtInter p)).getD j 0 - 30 * 24 * 60
              + (p.startMin2018 : K))))
          (fun j => (interpolate_noise medium_noise p locations
            p.mediumWindCorr add_dim).getD j 0)
          (fun j => (interpolate_noise long_noise p locations
            p.longWindCorr add_dim).getD j 0)
          (fun j => (interpolate_noise short_noise p locations
            p.shortWindCorr add_dim).getD j 0)
          (prng 0 smoothdist) i := by
  simp only [compute_wind_series, windSpecValue, smooth, Option.getD_none,
    NtInter]
  rw [getD_map_lt, getD_map_lt, getD_map_lt, getD_map_lt, getD_addIdx,
    getD_map_lt, getD_zipWith_lt, getD_zipWith3_lt, getD_map_lt]
  · rw [ite_gt_eq_min]
  all_goals
    simp only [List.length_map, List.length_zipWith, addIdx_length,
      zipWith3_length, linspace_length, hM, hL, hS, min_self, NtInter]
  all_goals exact hi

/-- Witness for C8 on the degenerate one-step grid. -/
theorem claim_C8_wind_combination_witness :
    ([(0:ℚ)].length = NtInter (pZero ℚ)) ∧ (0 < NtInter (pZero ℚ)) ∧
    ((compute_wind_series (K := ℚ) (fun _ => 1) (fun _ => 0) 0
        (fun noise _ _ _ _ => noise) (fun _ _ _ => 0) [] 1 [0] [0] [0]
        (pZero ℚ) 0 false 0).getD 0 0
      = windSpecValue (fun _ => (1:ℚ)) 1 0 0 0 0 (fun _ => 0)
          (fun j => [(0:ℚ)].getD j 0) (fun j => [(0:ℚ)].getD j 0)
          (fun j => [(0:ℚ)].getD j 0) (fun _ => 0) 0) :=
  ⟨rfl, by decide,
    claim_C8_wind_combination (K := ℚ) (fun _ => 1) (fun _ => 0) 0
      (fun noise _ _ _ _ => noise) (fun _ _ _ => 0) [] 1 [0] [0] [0]
      (pZero ℚ) 0 false 0 rfl rfl rfl 0 (by decide)⟩

/-- `getD` through a `map` from hours to mask values. -/
theorem getD_map_natk (f : ℕ → K) (l : List ℕ) (i : ℕ) (h : i < l.length) :
    (l.map f).getD i 0 = f (l.getD i 0) := by
  induction l generalizing i with
  | nil => simp at h
  | cons x xs ih =>
    cases i with
    | zero => simp
    | succ j =>
      simp only [List.map_cons, List.getD_cons_succ]
      exact ih j (by simpa using h)

/-- `getD` through a `zipWith` of values against hours. -/
theorem getD_zipWith_knat (f : K → ℕ → K) (as : List K) (bs : List ℕ)
    (i : ℕ) (ha : i < as.length) (hb : i < bs.length) :
    (List.zipWith f as bs).getD i 0 = f (as.getD i 0) (bs.getD i 0) := by
  induction as generalizing bs i with
  | nil => simp at ha
  | cons a as ih =>
    cases bs with
    | nil => simp at hb
    | cons b bs =>
      cases i with
      | zero => simp
      | succ j =>
        simp only [List.zipWith_cons_cons, List.getD_cons_succ]
        exact ih bs j (by simpa using ha) (by simpa using hb)

/-- The hour array reads back the per-step hour of day. -/
theorem hoursList_getD (p : Params K) (n i : ℕ) (h : i < n) :
    (hoursList p n).getD i 0 = hourOfStep p i := by
  unfold hoursList
  rw [List.getD_eq_getElem _ _ (by simpa using h)]
  simp

/-- Masked assignment leaves positions with a different hour unchanged. -/
theorem maskedAssign_getD_ne (h : ℕ) (hs : List ℕ) (xs vals : List K)
    (i : ℕ) (hlen : hs.length = xs.length) (hi : i < xs.length)
    (hne : hs.getD i 0 ≠ h) :
    (maskedAssign h hs xs vals).getD i 0 = xs.getD i 0 := by
  induction hs generalizing xs vals i with
  | nil =>
    cases xs with
    | nil => simp at hi
    | cons x xs => simp at hlen
  | cons hh hs ih =>
    cases xs with
    | nil => simp at hi
    | cons x xs =>
      by_cases hcase : hh = h
      · cases i with
        | zero => exact absurd hcase (by simpa using hne)
        | succ j =>
          simp only [maskedAssign, if_pos hcase, List.getD_cons_succ]
          exact ih xs vals.tail j (by simpa using hlen) (by simpa using hi)
            (by simpa using hne)
      · cases i with
        | zero => simp [maskedAssign, if_neg hcase]
        | succ j =>
          simp only [maskedAssign, if_neg hcase, List.getD_cons_succ]
          exact ih xs vals j (by simpa using hlen) (by simpa using hi)
            (by simpa using hne)

/-- A successful night mask is exactly 0 at every step whose hour is a
configured night hour, provided that hour is neither the first non-night
hour after sunrise nor the last non-night hour before sunset. -/
theorem nightMask_getD_night (rexp : K → K) (cfg dts : List ℕ)
    (dtm nb : ℕ) (tm : List K)
    (h : nightMask rexp cfg dts dtm nb = .ok tm)
    (i : ℕ) (hi : i < dts.length) (hmem : dts.getD i 0 ∈ cfg)
    (hne1 : ∀ mx, (cfg.filter (fun x => decide (x ≤ 12))).max? = some mx →
      dts.getD i 0 ≠ mx + 1)
    (hne2 : ∀ mn, (cfg.filter (fun x => decide (12 ≤ x))).min? = some mn →
      dts.getD i 0 ≠ mn - 1) :
    tm.getD i 0 = 0 := by
  simp only [nightMask] at h
  split at h
  · rename_i mx mn heq1 heq2
    split at h
    · simp at h
    · split at h
      · simp at h
      · simp only [Except.ok.injEq] at h
        subst h
        rw [maskedAssign_getD_ne _ _ _ _ _
            (by rw [maskedAssign_length]; simp) (by simpa [maskedAssign_length])
            (hne2 mn heq2),
          maskedAssign_getD_ne _ _ _ _ _ (by simp) (by simpa)
            (hne1 mx heq1),
          getD_map_natk _ _ _ hi, if_pos hmem]
  · simp at h

/-- A successful force-zero step preserves zeros position-wise. -/
theorem forceZero_getD_zero (margin : ℕ) (dts : List ℕ) (o out : List K)
    (h : forceZero margin dts o = .ok out) (i : ℕ)
    (hio : i < o.length) (hid : i < dts.length) (h0 : o.getD i 0 = 0) :
    out.getD i 0 = 0 := by
  simp only [forceZero] at h
  split at h
  · simp at h
  · split at h
    · simp at h
    · simp only [Except.ok.injEq] at h
      subst h
      rw [getD_zipWith_knat _ _ _ _ (by simp only [List.length_zipWith]; omega)
          hid, getD_zipWith_knat _ _ _ _ hio hid, h0]
      split
      · rfl
      · split
        · rfl
        · rfl

/-- C9: with `solar_night_hour = [22,23,0,1,2,3,4,5]` configured, the
pattern returned by `compute_solar_pattern` is exactly 0 at every time
step whose hour of day is one of the listed night hours (the sigmoid
day-boundary ramps only touch the first non-night hours 6 and 21, which
are not night hours). -/
theorem claim_C9_night_forcing {K : Type} [LinearOrderedField K]
    (rexp : K → K) (cubicInterp : List K → List K → K → K)
    (p : Params K) (sp : List K) (tol : K) (out : List K)
    (hcfg : p.solarNightHour = some [22, 23, 0, 1, 2, 3, 4, 5])
    (hres : compute_solar_pattern rexp cubicInterp p sp tol = Except.ok out)
    (i : ℕ) (hi : i < out.length)
    (hnight : hourOfStep p i ∈ [22, 23, 0, 1, 2, 3, 4, 5]) :
    out.getD i 0 = 0 := by
  have hlenout := compute_solar_pattern_length _ _ _ _ _ _ hres
  have hiN : i < NtInter p := by omega
  have hne6 : hourOfStep p i ≠ 6 ∧ hourOfStep p i ≠ 21 := by
    simp only [List.mem_cons, List.not_mem_nil, or_false] at hnight
    rcases hnight with h | h | h | h | h | h | h | h <;> omega
  unfold compute_solar_pattern at hres
  split at hres
  · simp at hres
  · rename_i sp'
    unfold patternPipeline at hres
    split at hres
    · simp at hres
    · rename_i out2 heqAN
      simp only [afterNight, hcfg] at heqAN
      split at heqAN
      · simp at heqAN
      · rename_i tm heqNM
        simp only [Except.ok.injEq] at heqAN
        have hfmax : (List.filter (fun x => decide (x ≤ 12))
            [22, 23, 0, 1, 2, 3, 4, 5]).max? = some 5 := by decide
        have hfmin : (List.filter (fun x => decide (12 ≤ x))
            [22, 23, 0, 1, 2, 3, 4, 5]).min? = some 22 := by decide
        have hdlen : (hoursList p (NtInter p)).length = NtInter p :=
          hoursList_length p (NtInter p)
        have htm : tm.length = NtInter p := by
          rw [nightMask_length _ _ _ _ _ _ heqNM, hdlen]
        have hout2 : out2.getD i 0 = 0 := by
          rw [← heqAN,
            getD_zipWith_lt _ _ _ _ (by rw [resampledOutput_length]; omega)
              (by omega)]
          have htm0 : tm.getD i 0 = 0 := by
            refine nightMask_getD_night rexp _ _ _ _ _ heqNM i (by omega)
              ?_ ?_ ?_
            · rw [hoursList_getD _ _ _ hiN]
              simpa using hnight
            · intro mx hmx
              rw [hfmax] at hmx
              simp only [Option.some.injEq] at hmx
              rw [hoursList_getD _ _ _ hiN]
              omega
            · intro mn hmn
              rw [hfmin] at hmn
              simp only [Option.some.injEq] at hmn
              rw [hoursList_getD _ _ _ hiN]
              omega
          rw [htm0, mul_zero]
        have hlen2 : out2.length = NtInter p := by
          rw [← heqAN, List.length_zipWith, resampledOutput_length, htm]
          omega
        split at hres
        · simp only [Except.ok.injEq] at hres
          subst hres
          exact hout2
        · exact forceZero_getD_zero _ _ _ _ hres i (by omega) (by omega) hout2

/-- Witness for C9 on a concrete two-hour run starting at midnight. -/
theorem claim_C9_night_forcing_witness :
    (pNight ℚ).solarNightHour = some [22, 23, 0, 1, 2, 3, 4, 5] ∧
    compute_solar_pattern (fun _ => (0:ℚ)) (fun _ _ _ => 1) (pNight ℚ) [0] 0
      = Except.ok [0, 0, 0] ∧
    (0 < [(0:ℚ), 0, 0].length) ∧
    (hourOfStep (pNight ℚ) 0 ∈ [22, 23, 0, 1, 2, 3, 4, 5]) ∧
    [(0:ℚ), 0, 0].getD 0 0 = 0 := by
  have hres : compute_solar_pattern (fun _ => (0:ℚ)) (fun _ _ _ => 1)
      (pNight ℚ) [0] 0 = Except.ok [0, 0, 0] := by
    have hr3 : List.range 3 = [0, 1, 2] := rfl
    have hr1 : List.range 1 = [0] := rfl
    simp [compute_solar_pattern, patternPipeline, afterNight, resampledOutput,
      nightMask, pNight, NtInter, linspace, nRepet, NtInterHr, hoursList,
      hourOfStep, nbDay, maskedAssign, hr3, hr1]
  exact ⟨rfl, hres, by decide, by decide,
    claim_C9_night_forcing (fun _ => (0:ℚ)) (fun _ _ _ => 1) (pNight ℚ) [0] 0
      [0, 0, 0] rfl hres 0 (by decide) (by decide)⟩
